import Mathlib

/-!
A verification development for the `nodejs-fs` project scaffolding tool.

The scaffolding core (name validation, directory resolution, template
copying, placeholder substitution, and the orchestrator) is shallowly
embedded here.  JavaScript strings are modelled as `List Char`; the
filesystem below the target directory is modelled as an association list
from relative paths to file contents; the external world (presence of
`npm`/`git`, exit status of spawned commands, the template tree) is an
explicit environment record.
-/

namespace NodejsFs

/-! ## String machinery

`matchAt pat l` decides whether `pat` occurs at the very start of `l`;
`hasSubstr pat l` decides whether `pat` occurs anywhere inside `l`
(the model of JavaScript `String.prototype.includes`); `endsWith pat l`
models `String.prototype.endsWith`.
-/

/-- `pat` is a prefix of `l` (JS `startsWith`, and the anchor test for a
literal regex match at the current scan position). -/
def matchAt : List Char → List Char → Bool
  | [], _ => true
  | _ :: _, [] => false
  | p :: ps, c :: cs => p = c && matchAt ps cs

/-- `pat` occurs somewhere inside `l`; model of JS `String.prototype.includes`. -/
def hasSubstr : List Char → List Char → Bool
  | pat, [] => matchAt pat []
  | pat, c :: cs => matchAt pat (c :: cs) || hasSubstr pat cs

/-- `l` ends with `pat`; model of JS `String.prototype.endsWith`. -/
def endsWith (pat l : List Char) : Bool :=
  matchAt pat.reverse l.reverse

theorem matchAt_iff (pat l : List Char) :
    matchAt pat l = true ↔ ∃ b, l = pat ++ b := by
  induction pat generalizing l with
  | nil => simp [matchAt]
  | cons p ps ih =>
    cases l with
    | nil => simp [matchAt]
    | cons c cs =>
      simp only [matchAt, Bool.and_eq_true, decide_eq_true_eq, ih, List.cons_append,
        List.cons.injEq]
      constructor
      · rintro ⟨rfl, b, rfl⟩; exact ⟨b, rfl, rfl⟩
      · rintro ⟨b, rfl, rfl⟩; exact ⟨rfl, b, rfl⟩

theorem hasSubstr_iff (pat l : List Char) :
    hasSubstr pat l = true ↔ ∃ a b, l = a ++ pat ++ b := by
  induction l with
  | nil =>
    simp only [hasSubstr, matchAt_iff]
    constructor
    · rintro ⟨b, h⟩
      exact ⟨[], b, by simpa using h⟩
    · rintro ⟨a, b, h⟩
      refine ⟨b, ?_⟩
      have ha : a = [] := by
        cases a with
        | nil => rfl
        | cons x xs => simp at h
      subst ha; simpa using h
  | cons c cs ih =>
    simp only [hasSubstr, Bool.or_eq_true, matchAt_iff, ih]
    constructor
    · rintro (⟨b, h⟩ | ⟨a, b, h⟩)
      · exact ⟨[], b, by simpa using h⟩
      · exact ⟨c :: a, b, by simp [h]⟩
    · rintro ⟨a, b, h⟩
      cases a with
      | nil => exact Or.inl ⟨b, by simpa using h⟩
      | cons x xs =>
        simp only [List.cons_append, List.cons.injEq] at h
        exact Or.inr ⟨xs, b, by simp [h.2]⟩

theorem endsWith_iff (pat l : List Char) :
    endsWith pat l = true ↔ ∃ a, l = a ++ pat := by
  unfold endsWith
  rw [matchAt_iff]
  constructor
  · rintro ⟨b, h⟩
    refine ⟨b.reverse, ?_⟩
    have := congrArg List.reverse h
    simpa using this
  · rintro ⟨a, rfl⟩
    exact ⟨a.reverse, by simp⟩

/-- Worker for `splitOn`: same scan as `replaceGo`, recording the
stretches of text between consecutive matches. -/
def splitGo (pat : List Char) : Nat → List Char → List (List Char)
  | _, [] => [[]]
  | k + 1, _ :: cs => splitGo pat k cs
  | 0, c :: cs =>
    if matchAt pat (c :: cs) && !pat.isEmpty then
      [] :: splitGo pat (pat.length - 1) cs
    else
      match splitGo pat 0 cs with
      | [] => [[c]]
      | p :: ps => (c :: p) :: ps

/-- The stretches of text lying between the occurrences of `pat` found by
the left-to-right scan. -/
def splitOn (pat l : List Char) : List (List Char) :=
  splitGo pat 0 l

/-- An opening brace character. -/
def obrace : Char := Char.ofNat 123

/-- A closing brace character. -/
def cbrace : Char := Char.ofNat 125

/-- The placeholder token built from a key, i.e. the key wrapped in double
braces, mirroring the template string passed to `new RegExp`. -/
def tok (key : List Char) : List Char :=
  obrace :: obrace :: key ++ [cbrace, cbrace]

/-- The dollar character. -/
def dollar : Char := Char.ofNat 36

/-- The backquote character. -/
def backquote : Char := Char.ofNat 96

/-- The apostrophe character. -/
def squote : Char := Char.ofNat 39

/-- ECMAScript GetSubstitution for a groupless regex: expand the dollar
sequences of the replacement value, given the matched text and the parts
of the original string before and after the match. -/
def getSubst (matched before after : List Char) : List Char → List Char
  | [] => []
  | [c] => [c]
  | c :: d :: ds =>
    if c = dollar then
      if d = dollar then dollar :: getSubst matched before after ds
      else if d = '&' then matched ++ getSubst matched before after ds
      else if d = backquote then before ++ getSubst matched before after ds
      else if d = squote then after ++ getSubst matched before after ds
      else c :: getSubst matched before after (d :: ds)
    else c :: getSubst matched before after (d :: ds)

/-- One JS global-replace scan with ECMAScript value substitution: `acc`
is the already-consumed prefix of the original string (needed by the
dollar-backquote sequence), the `Nat` argument is the number of
characters of the most recent match still to be consumed. -/
def replaceGoJS (pat rep : List Char) : Nat → List Char → List Char → List Char
  | _, _, [] => []
  | k + 1, acc, c :: cs => replaceGoJS pat rep k (acc ++ [c]) cs
  | 0, acc, c :: cs =>
    if matchAt pat (c :: cs) && !pat.isEmpty then
      getSubst pat acc (List.drop pat.length (c :: cs)) rep ++
        replaceGoJS pat rep (pat.length - 1) (acc ++ [c]) cs
    else c :: replaceGoJS pat rep 0 (acc ++ [c]) cs

/-- Model of `content.replace(new RegExp(pattern, 'g'), value)` for a
pattern string the regex engine matches literally (true of the tokens
built from keys of ASCII letters, digits, hyphens and underscores, such
as the repository's `PROJECT_NAME`; a key containing regex
metacharacters changes the match semantics and is outside this model):
each left-to-right non-overlapping occurrence of the pattern is replaced
by the GetSubstitution expansion of the value. -/
def replaceAllJS (pat rep l : List Char) : List Char :=
  replaceGoJS pat rep 0 [] l

/-- The `for (const [key, value] of Object.entries(replacements))` loop of
`replacePlaceholders`: the entries are applied sequentially, each one as a
global JS replace over the text produced so far. -/
def applyRepls (repls : List (List Char × List Char)) (content : List Char) :
    List Char :=
  repls.foldl (fun acc kv => replaceAllJS (tok kv.1) kv.2 acc) content

/-! ## Name Validator (`validateProjectName`, src/createProject.ts)

The JS regex is `^[a-z0-9-_]+$` with the `i` flag: the whole string must
be one or more ASCII letters, digits, hyphens or underscores.  Then the
lowercased name is checked against the reserved list, then the length
bounds. -/

/-- A character allowed by the character class `[a-z0-9-_]` under the
case-insensitive flag. -/
def validChar (c : Char) : Bool :=
  ('a' ≤ c && c ≤ 'z') || ('A' ≤ c && c ≤ 'Z') || ('0' ≤ c && c ≤ '9') ||
    c = '-' || c = '_'

/-- `validNameRegex.test(projectName)`: the anchored character-class regex
accepts exactly the nonempty strings all of whose characters are valid. -/
def testNameRegex (name : List Char) : Bool :=
  !name.isEmpty && name.all validChar

/-- `String.prototype.toLowerCase`, which agrees with `Char.toLower` on the
ASCII range that survives the regex check. -/
def toLowerStr (s : List Char) : List Char :=
  s.map Char.toLower

/-- The reserved-name list of `validateProjectName`. -/
def reservedNames : List (List Char) :=
  ["node_modules".toList, "src".toList, "test".toList, "tests".toList]

/-- The three distinct rejection reasons of `validateProjectName`. -/
inductive NameError
  | invalidChars
  | reservedWord
  | badLength
  deriving DecidableEq

/-- `validateProjectName` from src/createProject.ts: regex check, then
reserved-name check on the lowercased name, then the length bounds;
`throw` is modelled as `Except.error`. -/
def validateProjectName (name : List Char) : Except NameError Unit :=
  if testNameRegex name = false then Except.error NameError.invalidChars
  else if toLowerStr name ∈ reservedNames then Except.error NameError.reservedWord
  else if name.length < 1 || name.length > 214 then Except.error NameError.badLength
  else Except.ok ()

/-! ## Template Copier (`copyTemplate`, src/utils/copyTemplate.ts)

The template tree and the target directory are both modelled as
association lists from relative paths (lists of characters, with `/`
separators) to file contents; `fs.copy` with `overwrite: false`,
`errorOnExist: false` visits the template entries in order, drops the
ones rejected by the filter, and writes each remaining entry only when
the destination path is still absent. -/

/-- The `shouldSkip` test inside the `filter` callback of `fs.copy`:
plain substring tests (`String.prototype.includes`) plus one
one `.log` suffix test on the path relative to the template root. -/
def shouldSkip (relativePath : List Char) : Bool :=
  hasSubstr "node_modules".toList relativePath ||
    hasSubstr ".git".toList relativePath ||
    hasSubstr "logs".toList relativePath ||
    hasSubstr "dist".toList relativePath ||
    hasSubstr "build".toList relativePath ||
    endsWith ".log".toList relativePath

/-- First-match lookup in an association-list directory image. -/
def lookupFS {α : Type} : List (List Char × α) → List Char → Option α
  | [], _ => none
  | e :: es, p => if e.1 = p then some e.2 else lookupFS es p

/-- One `fs.copy` run: each template entry that passes the filter is
written to the destination unless a file already exists at that path
(`overwrite: false`); an existing file is skipped silently
(`errorOnExist: false`), so the run never fails on existing entries. -/
def copyRun {α : Type} (tmpl dest : List (List Char × α)) :
    List (List Char × α) :=
  tmpl.foldl
    (fun d e => if !shouldSkip e.1 && (lookupFS d e.1).isNone then d ++ [e] else d)
    dest

theorem copyRun_cons {α : Type} (e : List Char × α) (tmpl d : List (List Char × α)) :
    copyRun (e :: tmpl) d =
      copyRun tmpl (if !shouldSkip e.1 && (lookupFS d e.1).isNone then d ++ [e] else d) :=
  rfl

theorem lookupFS_append_some {α : Type} (d e : List (List Char × α))
    (p : List Char) (c : α) (h : lookupFS d p = some c) :
    lookupFS (d ++ e) p = some c := by
  induction d with
  | nil => simp [lookupFS] at h
  | cons x xs ih =>
    by_cases hx : x.1 = p
    · simpa [lookupFS, hx] using by simpa [lookupFS, hx] using h
    · simp only [lookupFS, if_neg hx] at h
      simpa [lookupFS, hx] using ih h

theorem lookupFS_append_none {α : Type} (d e : List (List Char × α))
    (p : List Char) (h : lookupFS d p = none) :
    lookupFS (d ++ e) p = lookupFS e p := by
  induction d with
  | nil => simp [lookupFS]
  | cons x xs ih =>
    by_cases hx : x.1 = p
    · simp [lookupFS, hx] at h
    · simp only [lookupFS, if_neg hx] at h
      simpa [lookupFS, hx] using ih h

theorem lookupFS_singleton_eq {α : Type} (x : List Char × α) (p : List Char)
    (h : x.1 = p) : lookupFS [x] p = some x.2 := by
  simp [lookupFS, h]

theorem copyRun_preserves {α : Type} (tmpl : List (List Char × α)) :
    ∀ d p c, lookupFS d p = some c → lookupFS (copyRun tmpl d) p = some c := by
  induction tmpl with
  | nil => intro d p c h; simpa [copyRun] using h
  | cons e rest ih =>
    intro d p c h
    rw [copyRun_cons]
    by_cases hc : (!shouldSkip e.1 && (lookupFS d e.1).isNone) = true
    · rw [if_pos hc]
      exact ih _ p c (lookupFS_append_some d [e] p c h)
    · rw [if_neg hc]
      exact ih d p c h

theorem copyRun_covered {α : Type} (tmpl : List (List Char × α)) :
    ∀ d, ∀ e ∈ tmpl, shouldSkip e.1 = false →
      (lookupFS (copyRun tmpl d) e.1).isSome = true := by
  induction tmpl with
  | nil => intro d e he; simp at he
  | cons x rest ih =>
    intro d e he hskip
    rw [copyRun_cons]
    rcases List.mem_cons.1 he with rfl | hmem
    · by_cases hc : (!shouldSkip e.1 && (lookupFS d e.1).isNone) = true
      · rw [if_pos hc]
        have : lookupFS (d ++ [e]) e.1 = some e.2 := by
          have hdn : lookupFS d e.1 = none := by
            rcases Bool.and_eq_true_iff.1 hc with ⟨_, h2⟩
            exact Option.isNone_iff_eq_none.1 h2
          rw [lookupFS_append_none d [e] e.1 hdn]
          exact lookupFS_singleton_eq e e.1 rfl
        have := copyRun_preserves rest _ e.1 e.2 this
        simp [this]
      · rw [if_neg hc]
        rcases hval : lookupFS d e.1 with _ | c
        · exact absurd (by simp [hskip, hval]) hc
        · have := copyRun_preserves rest d e.1 c hval
          simp [this]
    · exact ih _ e hmem hskip

theorem copyRun_noop {α : Type} (tmpl : List (List Char × α)) :
    ∀ d, (∀ e ∈ tmpl, shouldSkip e.1 = false → (lookupFS d e.1).isSome = true) →
      copyRun tmpl d = d := by
  induction tmpl with
  | nil => intro d _; rfl
  | cons x rest ih =>
    intro d hcov
    rw [copyRun_cons]
    have hx : (!shouldSkip x.1 && (lookupFS d x.1).isNone) = false := by
      cases hs : shouldSkip x.1 with
      | true => simp
      | false =>
        have := hcov x (List.mem_cons_self x rest) hs
        rcases Option.isSome_iff_exists.1 this with ⟨c, hcv⟩
        simp [hcv]
    rw [hx]
    simp only [Bool.false_eq_true, if_false]
    exact ih d (fun e he hs => hcov e (List.mem_cons_of_mem x he) hs)

/-- Every entry that survives into a `copyRun` result was either already
present in the destination or is a non-skipped template entry. -/
theorem copyRun_origin {α : Type} (tmpl : List (List Char × α)) :
    ∀ d p c, lookupFS (copyRun tmpl d) p = some c →
      lookupFS d p = some c ∨ ((p, c) ∈ tmpl ∧ shouldSkip p = false) := by
  induction tmpl with
  | nil => intro d p c h; exact Or.inl (by simpa [copyRun] using h)
  | cons x rest ih =>
    intro d p c h
    rw [copyRun_cons] at h
    by_cases hc : (!shouldSkip x.1 && (lookupFS d x.1).isNone) = true
    · rw [if_pos hc] at h
      rcases ih _ p c h with happ | hrest
      · -- came from `d ++ [x]`
        by_cases hdp : (lookupFS d p).isSome = true
        · rcases Option.isSome_iff_exists.1 hdp with ⟨c', hc'⟩
          have := lookupFS_append_some d [x] p c' hc'
          rw [this] at happ
          exact Or.inl (by rw [hc']; exact congrArg some (by injection happ))
        · have hdn : lookupFS d p = none := by
            rcases hval : lookupFS d p with _ | c'
            · rfl
            · exact absurd (by simp [hval]) hdp
          rw [lookupFS_append_none d [x] p hdn] at happ
          by_cases hxp : x.1 = p
          · rw [lookupFS_singleton_eq x p hxp] at happ
            have hskip : shouldSkip p = false := by
              rcases Bool.and_eq_true_iff.1 hc with ⟨h1, _⟩
              rw [← hxp]
              simpa using h1
            refine Or.inr ⟨?_, hskip⟩
            have : (p, c) = x := by
              have hc2 : c = x.2 := by injection happ with h2; exact h2.symm
              rw [hc2, ← hxp]
            simp [this]
          · simp [lookupFS, hxp] at happ
      · exact Or.inr ⟨List.mem_cons_of_mem x hrest.1, hrest.2⟩
    · rw [if_neg hc] at h
      rcases ih d p c h with happ | hrest
      · exact Or.inl happ
      · exact Or.inr ⟨List.mem_cons_of_mem x hrest.1, hrest.2⟩

/-- Full characterization of one copy run into a destination that does not
yet hold the queried path: exactly the non-skipped template entries appear. -/
theorem copyRun_lookup_iff {α : Type} (tmpl : List (List Char × α)) :
    ∀ d p c, (tmpl.map Prod.fst).Nodup → lookupFS d p = none →
      (lookupFS (copyRun tmpl d) p = some c ↔
        ((p, c) ∈ tmpl ∧ shouldSkip p = false)) := by
  induction tmpl with
  | nil =>
    intro d p c _ hd
    simpa [copyRun] using by simp [hd]
  | cons x rest ih =>
    intro d p c hnd hd
    have hnd' : x.1 ∉ List.map Prod.fst rest ∧ (List.map Prod.fst rest).Nodup := by
      rw [List.map_cons] at hnd
      exact List.nodup_cons.1 hnd
    rw [copyRun_cons]
    by_cases hxp : x.1 = p
    · cases hs : shouldSkip p with
      | false =>
        have hcond : (!shouldSkip x.1 && (lookupFS d x.1).isNone) = true := by
          simp [hxp, hs, hd]
        rw [if_pos hcond]
        have hap : lookupFS (d ++ [x]) p = some x.2 := by
          rw [lookupFS_append_none d [x] p hd]
          exact lookupFS_singleton_eq x p hxp
        have hres := copyRun_preserves rest (d ++ [x]) p x.2 hap
        rw [hres]
        constructor
        · intro hsome
          have hc2 : c = x.2 := by injection hsome with h2; exact h2.symm
          refine ⟨List.mem_cons.2 (Or.inl ?_), rfl⟩
          rw [hc2, ← hxp]
        · rintro ⟨hmem, _⟩
          rcases List.mem_cons.1 hmem with hhead | htail
          · have hc2 : c = x.2 := by
              have := congrArg Prod.snd hhead
              simpa using this
            rw [hc2]
          · exfalso
            have : p ∈ rest.map Prod.fst := List.mem_map_of_mem Prod.fst htail
            rw [← hxp] at this
            exact hnd'.1 this
      | true =>
        have hcond : (!shouldSkip x.1 && (lookupFS d x.1).isNone) = false := by
          simp [hxp, hs]
        rw [hcond]
        simp only [Bool.false_eq_true, if_false]
        rw [ih d p c hnd'.2 hd, hs]
        simp
    · have hmemiff : ((p, c) ∈ x :: rest) ↔ ((p, c) ∈ rest) := by
        constructor
        · intro hmem
          rcases List.mem_cons.1 hmem with hhead | htail
          · exact absurd (congrArg Prod.fst hhead).symm (by simpa using hxp)
          · exact htail
        · exact List.mem_cons_of_mem x
      by_cases hc : (!shouldSkip x.1 && (lookupFS d x.1).isNone) = true
      · rw [if_pos hc]
        have hd' : lookupFS (d ++ [x]) p = none := by
          rw [lookupFS_append_none d [x] p hd]
          simp [lookupFS, hxp]
        rw [ih (d ++ [x]) p c hnd'.2 hd', hmemiff]
      · rw [if_neg hc]
        rw [ih d p c hnd'.2 hd, hmemiff]

/-- Modelled from the words of the spec (the denylist read as whole path
*segments*): an entry is denied when one of its `/`-separated path
segments is literally `node_modules`, `.git` (version-control metadata
directory), `logs`, `dist` or `build`, or when the path ends in `.log`.
This is the reading claimed by C2; the `shouldSkip` of the source instead uses
raw substring tests. -/
def specSegmentSkip (p : List Char) : Bool :=
  ((splitOn "/".toList p).any fun s =>
    s = "node_modules".toList || s = ".git".toList || s = "logs".toList ||
      s = "dist".toList || s = "build".toList) ||
  endsWith ".log".toList p

/-! ## Directory Resolver (`createProjectDirectory` and `isDirEmpty`,
src/createProject.ts)

The state of the target path is: absent, an existing directory with a
(possibly empty) set of entries, or an existing non-directory file. -/

/-- File contents: plain text, or data that `fs.readJson` parses
successfully (modelled as a field list).  `contentText` is the view
`fs.readFile` (as utf-8 text) has of a content. -/
inductive Content
  | text (s : List Char)
  | json (fields : List (List Char × List Char))
  deriving DecidableEq

/-- The text of a content as read back by `fs.readFile`.  For `json`
contents (which in reality are serialized text) the model returns the
empty text; the orchestrator only ever substitutes placeholders in the
`README.md` text file, so this artifact is never observed. -/
def contentText : Content → List Char
  | Content.text s => s
  | Content.json _ => []

/-- Write (create or overwrite) the entry at `p`. -/
def setFS {α : Type} : List (List Char × α) → List Char → α → List (List Char × α)
  | [], p, v => [(p, v)]
  | e :: es, p, v => if e.1 = p then (p, v) :: es else e :: setFS es p v

/-- The state of the target path of the orchestrator. -/
inductive DirState
  | missing
  | present (entries : List (List Char × Content))
  | isFile
  deriving DecidableEq

/-- `fs.pathExists(projectPath)`. -/
def pathExists : DirState → Bool
  | DirState.missing => false
  | _ => true

/-- `isDirEmpty` from src/createProject.ts: `fs.readdir` in a `try`
block; *any* listing failure (path absent, or path not a directory) is
caught and reported as "empty". -/
def isDirEmpty : DirState → Bool
  | DirState.present entries => entries.isEmpty
  | _ => true

/-- The error kinds surfaced by the orchestrator steps. -/
inductive Err
  | invalidName
  | dirNotEmpty
  | copyFailure
  | configFailure
  | installFailure
  | gitFailure
  | readFailure
  deriving DecidableEq

/-- `createProjectDirectory` from src/createProject.ts: if the target
exists it is reused only when the emptiness probe says it is empty,
otherwise the step throws; if the target does not exist, `fs.ensureDir`
creates an empty directory.  The returned pair is (step outcome,
resulting state of the target path). -/
def createProjectDirectory (s : DirState) : Except Err Unit × DirState :=
  if pathExists s then
    if isDirEmpty s then (Except.ok (), s)
    else (Except.error Err.dirNotEmpty, s)
  else (Except.ok (), DirState.present [])

/-! ## Orchestrator (`createProject`, src/createProject.ts) -/

/-- The CLI options consumed by the orchestrator: `install` is absent or
an explicit boolean (the code distinguishes `undefined` from `false`),
`git` defaults to false, `verbose` controls whether optional-step
failures are rethrown. -/
structure CliOptions where
  install : Option Bool
  git : Bool
  verbose : Bool
  deriving DecidableEq

/-- The external world: the state of the target path, the template tree shipped
with the tool, and the availability/exit status of the external `npm` and
`git` commands. -/
structure Env where
  dirState : DirState
  templateExists : Bool
  template : List (List Char × Content)
  hasNpm : Bool
  npmOk : Bool
  hasGit : Bool
  gitInitOk : Bool
  gitAddOk : Bool
  gitCommitOk : Bool
  deriving DecidableEq

/-- `copyTemplateFiles` (wrapping `copyTemplate`): fails when the template
root is missing; otherwise one `copyRun` into the target.  Copying into an
absent target creates it; copying onto a non-directory file fails. -/
def copyTemplateFiles (env : Env) (s : DirState) : Except Err DirState :=
  if env.templateExists = false then Except.error Err.copyFailure
  else
    match s with
    | DirState.present m => Except.ok (DirState.present (copyRun env.template m))
    | DirState.missing => Except.ok (DirState.present (copyRun env.template []))
    | DirState.isFile => Except.error Err.copyFailure

/-- Relative path of the project manifest. -/
def pkgJsonPath : List Char := "package.json".toList

/-- Relative path of the top-level documentation file. -/
def readmePath : List Char := "README.md".toList

/-- The manifest field rewritten by the Config Updater. -/
def nameField : List Char := "name".toList

/-- The placeholder key substituted in `README.md`. -/
def projectNameKey : List Char := "PROJECT_NAME".toList

/-- `replacePlaceholders` from src/utils/copyTemplate.ts at the filesystem
level: read the file as text (failure to read is an error), apply every
map entry in sequence as a global replace, write the result back to the
same path. -/
def replacePlaceholdersFS (m : List (List Char × Content)) (p : List Char)
    (repls : List (List Char × List Char)) :
    Except Err (List (List Char × Content)) :=
  match lookupFS m p with
  | some c => Except.ok (setFS m p (Content.text (applyRepls repls (contentText c))))
  | none => Except.error Err.readFailure

/-- `updateProjectConfig` from src/createProject.ts: `fs.readJson` on
`package.json` (failing when the file is absent or not parsable), rewrite
its `name` field, write it back; then, only if `README.md` exists,
substitute `\x7b\x7bPROJECT_NAME\x7d\x7d` in it. -/
def updateProjectConfig (name : List Char) (s : DirState) : Except Err DirState :=
  match s with
  | DirState.present m =>
    match lookupFS m pkgJsonPath with
    | some (Content.json fields) =>
      let m1 := setFS m pkgJsonPath (Content.json (setFS fields nameField name))
      if (lookupFS m1 readmePath).isSome then
        match replacePlaceholdersFS m1 readmePath [(projectNameKey, name)] with
        | Except.ok m2 => Except.ok (DirState.present m2)
        | Except.error e => Except.error e
      else Except.ok (DirState.present m1)
    | _ => Except.error Err.configFailure
  | _ => Except.error Err.configFailure

/-- `installDependencies` from src/createProject.ts: skipped when install
was disabled or `npm` is unavailable (warning only); a failing
`npm install` is caught, logged as a warning, and rethrown only in
verbose mode. -/
def installDependencies (opts : CliOptions) (env : Env) : Except Err Unit :=
  if (opts.install.getD true) = false then Except.ok ()
  else if env.hasNpm = false then Except.ok ()
  else if env.npmOk then Except.ok ()
  else if opts.verbose then Except.error Err.installFailure
  else Except.ok ()

/-- `initializeGit` from src/createProject.ts: skipped when the git flag
is off or `git` is unavailable; a failure of any of the three spawned
commands (`git init`, `git add .`, `git commit`) is caught and rethrown
only in verbose mode. -/
def initGitRepo (opts : CliOptions) (env : Env) : Except Err Unit :=
  if opts.git = false then Except.ok ()
  else if env.hasGit = false then Except.ok ()
  else if env.gitInitOk && env.gitAddOk && env.gitCommitOk then Except.ok ()
  else if opts.verbose then Except.error Err.gitFailure
  else Except.ok ()

/-- The orchestrator steps, in source order. -/
inductive Step
  | validate
  | resolveDir
  | copyStep
  | config
  | installStep
  | gitStep
  deriving DecidableEq

instance {ε α : Type} [DecidableEq ε] [DecidableEq α] : DecidableEq (Except ε α)
  | Except.error e, Except.error e' =>
    if h : e = e' then Decidable.isTrue (by rw [h]) else
      Decidable.isFalse (by intro hx; injection hx; exact h (by assumption))
  | Except.ok a, Except.ok a' =>
    if h : a = a' then Decidable.isTrue (by rw [h]) else
      Decidable.isFalse (by intro hx; injection hx; exact h (by assumption))
  | Except.error _, Except.ok _ => Decidable.isFalse (by intro hx; injection hx)
  | Except.ok _, Except.error _ => Decidable.isFalse (by intro hx; injection hx)

/-- Outcome of one orchestrator invocation: the propagated result, the
list of steps that were entered (in execution order), and the final state
of the target path. -/
structure RunResult where
  result : Except Err Unit
  trace : List Step
  fs : DirState
  deriving DecidableEq

/-- The steps a run with the given options is supposed to execute, in
order: the four mandatory steps, then dependency installation unless
`install` is explicitly `false`, then git setup when requested. -/
def enabledSteps (opts : CliOptions) : List Step :=
  [Step.validate, Step.resolveDir, Step.copyStep, Step.config] ++
    (if opts.install ≠ some false then [Step.installStep] else []) ++
    (if opts.git then [Step.gitStep] else [])

/-- `createProject` from src/createProject.ts: the awaited steps in
source order; the first failure is propagated immediately and no later
step runs; nothing written by earlier steps is removed. -/
def createProject (name : List Char) (opts : CliOptions) (env : Env) : RunResult :=
  match validateProjectName name with
  | Except.error _ => ⟨Except.error Err.invalidName, [Step.validate], env.dirState⟩
  | Except.ok _ =>
    match createProjectDirectory env.dirState with
    | (Except.error e, s1) => ⟨Except.error e, [Step.validate, Step.resolveDir], s1⟩
    | (Except.ok _, s1) =>
      match copyTemplateFiles env s1 with
      | Except.error e =>
        ⟨Except.error e, [Step.validate, Step.resolveDir, Step.copyStep], s1⟩
      | Except.ok s2 =>
        match updateProjectConfig name s2 with
        | Except.error e =>
          ⟨Except.error e, [Step.validate, Step.resolveDir, Step.copyStep, Step.config], s2⟩
        | Except.ok s3 =>
          if opts.install ≠ some false then
            match installDependencies opts env with
            | Except.error e =>
              ⟨Except.error e,
                [Step.validate, Step.resolveDir, Step.copyStep, Step.config,
                  Step.installStep], s3⟩
            | Except.ok _ =>
              if opts.git then
                match initGitRepo opts env with
                | Except.error e =>
                  ⟨Except.error e,
                    [Step.validate, Step.resolveDir, Step.copyStep, Step.config,
                      Step.installStep, Step.gitStep], s3⟩
                | Except.ok _ =>
                  ⟨Except.ok (),
                    [Step.validate, Step.resolveDir, Step.copyStep, Step.config,
                      Step.installStep, Step.gitStep], s3⟩
              else
                ⟨Except.ok (),
                  [Step.validate, Step.resolveDir, Step.copyStep, Step.config,
                    Step.installStep], s3⟩
          else
            if opts.git then
              match initGitRepo opts env with
              | Except.error e =>
                ⟨Except.error e,
                  [Step.validate, Step.resolveDir, Step.copyStep, Step.config,
                    Step.gitStep], s3⟩
              | Except.ok _ =>
                ⟨Except.ok (),
                  [Step.validate, Step.resolveDir, Step.copyStep, Step.config,
                    Step.gitStep], s3⟩
            else
              ⟨Except.ok (),
                [Step.validate, Step.resolveDir, Step.copyStep, Step.config], s3⟩

/-! ## Derived facts and claim theorems -/

/-- Lookup into the target directory seen as a file map; non-directories
hold no entries. -/
def dirLookup : DirState → List Char → Option Content
  | DirState.present m, p => lookupFS m p
  | _, _ => none

theorem copyRun_idem {α : Type} (tmpl d : List (List Char × α)) :
    copyRun tmpl (copyRun tmpl d) = copyRun tmpl d :=
  copyRun_noop tmpl _ (fun e he hs => copyRun_covered tmpl d e he hs)

/-- The denylist of the filter as a structural property: the relative path
contains one of the five strings as a raw substring, or ends in `.log`. -/
def SkipSpecProp (p : List Char) : Prop :=
  (∃ a b, p = a ++ "node_modules".toList ++ b) ∨
  (∃ a b, p = a ++ ".git".toList ++ b) ∨
  (∃ a b, p = a ++ "logs".toList ++ b) ∨
  (∃ a b, p = a ++ "dist".toList ++ b) ∨
  (∃ a b, p = a ++ "build".toList ++ b) ∨
  (∃ a, p = a ++ ".log".toList)

theorem shouldSkip_iff (p : List Char) :
    shouldSkip p = true ↔ SkipSpecProp p := by
  unfold shouldSkip SkipSpecProp
  simp only [Bool.or_eq_true, hasSubstr_iff, endsWith_iff, or_assoc]

theorem shouldSkip_eq_false_iff (p : List Char) :
    shouldSkip p = false ↔ ¬ SkipSpecProp p := by
  rw [← shouldSkip_iff]
  cases shouldSkip p <;> simp

/-- C3: the Name Validator accepts a name exactly when every character is
an ASCII letter, digit, hyphen or underscore, the lowercased name is not
reserved, and the length lies in [1, 214]; so length 0 and length ≥ 215
are rejected, reserved names are rejected case-insensitively, and
otherwise-valid names of boundary lengths 1 and 214 are accepted. -/
theorem validateProjectName_ok_iff (name : List Char) :
    validateProjectName name = Except.ok () ↔
      ((∀ c ∈ name, validChar c = true) ∧ toLowerStr name ∉ reservedNames ∧
        1 ≤ name.length ∧ name.length ≤ 214) := by
  unfold validateProjectName
  constructor
  · intro h
    by_cases h1 : testNameRegex name = false
    · simp [h1] at h
    · rw [if_neg h1] at h
      by_cases h2 : toLowerStr name ∈ reservedNames
      · simp [h2] at h
      · rw [if_neg h2] at h
        by_cases h3 : (name.length < 1 || name.length > 214) = true
        · rw [if_pos h3] at h
          exact absurd h (by simp)
        · have hreg : testNameRegex name = true := by
            cases hx : testNameRegex name
            · exact absurd hx h1
            · rfl
          have hall : ∀ c ∈ name, validChar c = true := by
            have h4 : ¬name = [] ∧ ∀ x ∈ name, validChar x = true := by
              simpa [testNameRegex, List.all_eq_true, List.isEmpty_iff] using hreg
            exact h4.2
          have hlen : 1 ≤ name.length ∧ name.length ≤ 214 := by
            simp only [Bool.or_eq_true, decide_eq_true_eq, not_or] at h3
            omega
          exact ⟨hall, h2, hlen.1, hlen.2⟩
  · rintro ⟨hall, hres, hlen1, hlen2⟩
    have hreg : testNameRegex name = true := by
      have hne : name.isEmpty = false := by
        cases name with
        | nil => simp at hlen1
        | cons c cs => rfl
      unfold testNameRegex
      rw [hne]
      simp only [Bool.not_false, Bool.true_and, List.all_eq_true]
      exact hall
    rw [if_neg (by simp [hreg]), if_neg hres,
      if_neg (by simp only [Bool.or_eq_true, decide_eq_true_eq, not_or]; omega)]

theorem validateProjectName_ok_iff_witness :
    validateProjectName "myapp".toList = Except.ok () :=
  (validateProjectName_ok_iff "myapp".toList).2
    ⟨by decide, by decide, by decide, by decide⟩

/-- C4: when the target directory exists and is non-empty the Directory
Resolver fails with the not-empty error and the state of the target is
untouched; an existing empty directory is returned unchanged; a missing
target is created as an empty directory. -/
theorem createProjectDirectory_spec :
    (∀ entries : List (List Char × Content), entries ≠ [] →
      createProjectDirectory (DirState.present entries) =
        (Except.error Err.dirNotEmpty, DirState.present entries)) ∧
    createProjectDirectory (DirState.present []) = (Except.ok (), DirState.present []) ∧
    createProjectDirectory DirState.missing = (Except.ok (), DirState.present []) := by
  refine ⟨?_, rfl, rfl⟩
  intro entries h
  cases entries with
  | nil => exact absurd rfl h
  | cons e es => rfl

theorem createProjectDirectory_spec_witness :
    createProjectDirectory (DirState.present [("a".toList, Content.text "x".toList)]) =
      (Except.error Err.dirNotEmpty,
        DirState.present [("a".toList, Content.text "x".toList)]) :=
  createProjectDirectory_spec.1 [("a".toList, Content.text "x".toList)] (by decide)

/-- C10: when the target path exists but is a non-directory file, the
failed listing of the emptiness probe is caught and reported as "empty", so the
Directory Resolver succeeds and returns the path instead of failing with
the not-empty error. -/
theorem createProjectDirectory_file_target :
    isDirEmpty DirState.isFile = true ∧
    createProjectDirectory DirState.isFile = (Except.ok (), DirState.isFile) :=
  ⟨rfl, rfl⟩

/-- C9: the exclusion test matches the denylist strings as raw substrings
of the relative path (not as whole path segments): any entry whose
relative path contains `node_modules`, `.git`, `logs`, `dist` or `build`
anywhere, or ends with `.log`, is never present in the result of a copy
into a fresh target — including names such as `.gitignore` (which merely
contains `.git`) or `catalogs.txt` (which merely contains `logs`). -/
theorem copy_excludes_denylisted (tmpl : List (List Char × Content))
    (p : List Char) (h : SkipSpecProp p) :
    lookupFS (copyRun tmpl []) p = none := by
  have hskip : shouldSkip p = true := (shouldSkip_iff p).2 h
  rcases hval : lookupFS (copyRun tmpl []) p with _ | c
  · rfl
  · rcases copyRun_origin tmpl [] p c hval with hd | ⟨_, hfalse⟩
    · simp [lookupFS] at hd
    · rw [hskip] at hfalse
      exact absurd hfalse (by simp)

theorem copy_excludes_denylisted_witness :
    lookupFS (copyRun [(".gitignore".toList, Content.text "x".toList)]
        ([] : List (List Char × Content))) ".gitignore".toList = none :=
  copy_excludes_denylisted [(".gitignore".toList, Content.text "x".toList)]
    ".gitignore".toList (Or.inr (Or.inl ⟨[], "ignore".toList, by decide⟩))

/-- C2 counterexample: `catalogs.txt` matches none of the denylist items
read as path segments (and is not version-control metadata, a log, or
build output), yet the copy of a template containing it into a fresh
target does not produce it — the substring test of the code drops it. -/
theorem copy_filter_not_segment_based :
    specSegmentSkip "catalogs.txt".toList = false ∧
    shouldSkip "catalogs.txt".toList = true ∧
    lookupFS (copyRun [("catalogs.txt".toList, Content.text "x".toList)]
        ([] : List (List Char × Content))) "catalogs.txt".toList = none :=
  ⟨by decide, by decide, by decide⟩

/-- C2 amended: for a template with no duplicate relative paths, an entry
appears in the result of a copy into a fresh target exactly when it does
not match the denylist read as *raw substrings*: its relative path
contains none of `node_modules`, `.git`, `logs`, `dist`, `build`
anywhere and does not end with `.log`; every entry not matching that
substring denylist is copied, preserving its relative path. -/
theorem copyTemplate_filter_iff (tmpl : List (List Char × Content))
    (hnd : (tmpl.map Prod.fst).Nodup) (p : List Char) (c : Content) :
    lookupFS (copyRun tmpl []) p = some c ↔
      ((p, c) ∈ tmpl ∧ ¬ SkipSpecProp p) := by
  rw [copyRun_lookup_iff tmpl [] p c hnd rfl, shouldSkip_eq_false_iff]

theorem copyTemplate_filter_iff_witness :
    ("index.js".toList, Content.text "x".toList) ∈
        [("index.js".toList, Content.text "x".toList)] ∧
      ¬ SkipSpecProp "index.js".toList :=
  (copyTemplate_filter_iff [("index.js".toList, Content.text "x".toList)]
    (by decide) "index.js".toList (Content.text "x".toList)).1 (by decide)

/-- C1: a second copy of the same template into the directory produced by
a first copy is a no-op that produces no error: the run succeeds, the
resulting file set (paths and contents) is identical, and — because the
copy never overwrites — every file already present before a copy keeps
its exact content afterwards. -/
theorem copyTemplateFiles_idempotent (env : Env) (s1 s2 : DirState)
    (h : copyTemplateFiles env s1 = Except.ok s2) :
    copyTemplateFiles env s2 = Except.ok s2 ∧
    (∀ p c, dirLookup s1 p = some c → dirLookup s2 p = some c) := by
  unfold copyTemplateFiles at h ⊢
  by_cases ht : env.templateExists = false
  · simp [ht] at h
  · rw [if_neg ht] at h ⊢
    cases s1 with
    | missing =>
      have hs2 : s2 = DirState.present (copyRun env.template []) := by
        injection h with h2; exact h2.symm
      subst hs2
      refine ⟨by simp [copyRun_idem], ?_⟩
      intro p c hpc
      simp [dirLookup] at hpc
    | isFile => simp at h
    | present m =>
      have hs2 : s2 = DirState.present (copyRun env.template m) := by
        injection h with h2; exact h2.symm
      subst hs2
      refine ⟨by simp [copyRun_idem], ?_⟩
      intro p c hpc
      simpa [dirLookup] using copyRun_preserves env.template m p c (by simpa [dirLookup] using hpc)

/-- A small but non-trivial environment for concrete runs: one template
file, a target that already holds an unrelated file. -/
def demoEnv : Env :=
  { dirState := DirState.present []
    templateExists := true
    template := [("a.js".toList, Content.text "A".toList)]
    hasNpm := true
    npmOk := true
    hasGit := true
    gitInitOk := true
    gitAddOk := true
    gitCommitOk := true }

theorem copyTemplateFiles_idempotent_witness :
    copyTemplateFiles demoEnv
        (DirState.present
          (copyRun demoEnv.template [("old.js".toList, Content.text "O".toList)])) =
      Except.ok (DirState.present
        (copyRun demoEnv.template [("old.js".toList, Content.text "O".toList)])) ∧
    dirLookup
        (DirState.present
          (copyRun demoEnv.template [("old.js".toList, Content.text "O".toList)]))
        "old.js".toList = some (Content.text "O".toList) := by
  have h := copyTemplateFiles_idempotent demoEnv
    (DirState.present [("old.js".toList, Content.text "O".toList)])
    (DirState.present
      (copyRun demoEnv.template [("old.js".toList, Content.text "O".toList)]))
    (by decide)
  exact ⟨h.1, h.2 "old.js".toList (Content.text "O".toList) (by decide)⟩

theorem prefix_enabled_of_prefix_mandatory (opts : CliOptions) (l : List Step)
    (h : l <+: [Step.validate, Step.resolveDir, Step.copyStep, Step.config]) :
    l <+: enabledSteps opts := by
  unfold enabledSteps
  exact h.trans ((List.prefix_append _ _).trans (List.prefix_append _ _))

/-- C5: the orchestrator enters exactly the steps enabled by the options,
in the strict source order (its trace is always a prefix of the enabled
step list, and on success it is the whole list, so an error stops every
later step); and when the configuration step fails after a successful
copy, the run fails with that error while the target keeps the full
copied tree — no rollback of already-written files happens. -/
theorem createProject_strict_order (name : List Char) (opts : CliOptions) (env : Env) :
    ((createProject name opts env).trace <+: enabledSteps opts) ∧
    ((createProject name opts env).result = Except.ok () →
      (createProject name opts env).trace = enabledSteps opts) ∧
    (∀ s2, validateProjectName name = Except.ok () →
      (createProjectDirectory env.dirState).1 = Except.ok () →
      copyTemplateFiles env (createProjectDirectory env.dirState).2 = Except.ok s2 →
      ∀ e, updateProjectConfig name s2 = Except.error e →
        (createProject name opts env).result = Except.error e ∧
        (createProject name opts env).fs = s2) := by
  refine ⟨?_, ?_, ?_⟩
  · -- the trace is a prefix of the enabled steps
    rcases hv : validateProjectName name with e0 | u
    · simp only [createProject, hv]
      exact prefix_enabled_of_prefix_mandatory opts _
        ⟨[Step.resolveDir, Step.copyStep, Step.config], rfl⟩
    · rcases hdir : createProjectDirectory env.dirState with ⟨r1, s1⟩
      rcases r1 with e1 | u1
      · simp only [createProject, hv, hdir]
        exact prefix_enabled_of_prefix_mandatory opts _
          ⟨[Step.copyStep, Step.config], rfl⟩
      · rcases hcp : copyTemplateFiles env s1 with e2 | s2'
        · simp only [createProject, hv, hdir, hcp]
          exact prefix_enabled_of_prefix_mandatory opts _ ⟨[Step.config], rfl⟩
        · rcases hcfg : updateProjectConfig name s2' with e3 | s3
          · simp only [createProject, hv, hdir, hcp, hcfg]
            exact prefix_enabled_of_prefix_mandatory opts _ ⟨[], rfl⟩
          · by_cases hI : opts.install ≠ some false
            · rcases hinst : installDependencies opts env with e4 | u4
              · simp [createProject, enabledSteps, hv, hdir, hcp, hcfg, hI, hinst]
              · by_cases hG : opts.git = true
                · rcases hgit : initGitRepo opts env with e5 | u5
                  · simp [createProject, enabledSteps, hv, hdir, hcp, hcfg, hI, hinst,
                      hG, hgit]
                  · simp [createProject, enabledSteps, hv, hdir, hcp, hcfg, hI, hinst,
                      hG, hgit]
                · have hG' : opts.git = false := by
                    cases hgv : opts.git
                    · rfl
                    · exact absurd hgv hG
                  simp [createProject, enabledSteps, hv, hdir, hcp, hcfg, hI, hinst, hG']
            · have hIeq : opts.install = some false := not_not.1 hI
              by_cases hG : opts.git = true
              · rcases hgit : initGitRepo opts env with e5 | u5
                · simp [createProject, enabledSteps, hv, hdir, hcp, hcfg, hIeq, hG, hgit]
                · simp [createProject, enabledSteps, hv, hdir, hcp, hcfg, hIeq, hG, hgit]
              · have hG' : opts.git = false := by
                  cases hgv : opts.git
                  · rfl
                  · exact absurd hgv hG
                simp [createProject, enabledSteps, hv, hdir, hcp, hcfg, hIeq, hG']
  · -- a successful run executed every enabled step
    rcases hv : validateProjectName name with e0 | u
    · simp only [createProject, hv]
      intro h
      exact absurd h (by simp)
    · rcases hdir : createProjectDirectory env.dirState with ⟨r1, s1⟩
      rcases r1 with e1 | u1
      · simp only [createProject, hv, hdir]
        intro h
        exact absurd h (by simp)
      · rcases hcp : copyTemplateFiles env s1 with e2 | s2'
        · simp only [createProject, hv, hdir, hcp]
          intro h
          exact absurd h (by simp)
        · rcases hcfg : updateProjectConfig name s2' with e3 | s3
          · simp only [createProject, hv, hdir, hcp, hcfg]
            intro h
            exact absurd h (by simp)
          · by_cases hI : opts.install ≠ some false
            · rcases hinst : installDependencies opts env with e4 | u4
              · intro h
                simp [createProject, hv, hdir, hcp, hcfg, hI, hinst] at h
              · by_cases hG : opts.git = true
                · rcases hgit : initGitRepo opts env with e5 | u5
                  · intro h
                    simp [createProject, hv, hdir, hcp, hcfg, hI, hinst, hG, hgit] at h
                  · intro _
                    simp [createProject, enabledSteps, hv, hdir, hcp, hcfg, hI, hinst,
                      hG, hgit]
                · have hG' : opts.git = false := by
                    cases hgv : opts.git
                    · rfl
                    · exact absurd hgv hG
                  intro _
                  simp [createProject, enabledSteps, hv, hdir, hcp, hcfg, hI, hinst, hG']
            · have hIeq : opts.install = some false := not_not.1 hI
              by_cases hG : opts.git = true
              · rcases hgit : initGitRepo opts env with e5 | u5
                · intro h
                  simp [createProject, hv, hdir, hcp, hcfg, hIeq, hG, hgit] at h
                · intro _
                  simp [createProject, enabledSteps, hv, hdir, hcp, hcfg, hIeq, hG, hgit]
              · have hG' : opts.git = false := by
                  cases hgv : opts.git
                  · rfl
                  · exact absurd hgv hG
                intro _
                simp [createProject, enabledSteps, hv, hdir, hcp, hcfg, hIeq, hG']
  · -- a configuration failure aborts with the copied tree left in place
    intro s2 hv' hd' hcopy e he
    rcases hv2 : validateProjectName name with e0 | u
    · rw [hv2] at hv'
      exact absurd hv' (by simp)
    · cases u
      rcases hdir : createProjectDirectory env.dirState with ⟨r1, s1⟩
      rw [hdir] at hd' hcopy
      rcases r1 with e1 | u1
      · exact absurd hd' (by simp)
      · cases u1
        simp only at hcopy
        simp [createProject, hv2, hdir, hcopy, he]

/-- An environment whose template lacks `package.json`, so the
configuration step fails after a successful copy. -/
def envCfgFail : Env :=
  { dirState := DirState.present []
    templateExists := true
    template := [("README.md".toList, Content.text "hello".toList)]
    hasNpm := true
    npmOk := true
    hasGit := true
    gitInitOk := true
    gitAddOk := true
    gitCommitOk := true }

theorem createProject_strict_order_witness :
    (createProject "myapp".toList ⟨none, false, false⟩ envCfgFail).result =
      Except.error Err.configFailure ∧
    (createProject "myapp".toList ⟨none, false, false⟩ envCfgFail).fs =
      DirState.present [("README.md".toList, Content.text "hello".toList)] :=
  (createProject_strict_order "myapp".toList ⟨none, false, false⟩ envCfgFail).2.2
    (DirState.present [("README.md".toList, Content.text "hello".toList)])
    (by decide) (by decide) (by decide) Err.configFailure (by decide)

/-- C6: once the mandatory steps have succeeded, a failure of the
underlying external command in an enabled optional step (dependency
installation, or version-control setup) is downgraded to a warning when
the verbose flag is off — the whole run still succeeds — while with the
verbose flag on the very same failure propagates as a hard failure of
the run. -/
theorem optionalStep_failure_handling (name : List Char) (opts : CliOptions)
    (env : Env) (s2 s3 : DirState)
    (hv : validateProjectName name = Except.ok ())
    (hd : (createProjectDirectory env.dirState).1 = Except.ok ())
    (hcopy : copyTemplateFiles env (createProjectDirectory env.dirState).2 = Except.ok s2)
    (hcfg : updateProjectConfig name s2 = Except.ok s3) :
    ((opts.install ≠ some false → env.hasNpm = true → env.npmOk = false →
        opts.git = false →
        ((opts.verbose = false → (createProject name opts env).result = Except.ok ()) ∧
         (opts.verbose = true →
           (createProject name opts env).result = Except.error Err.installFailure))) ∧
     (opts.install = some false → opts.git = true → env.hasGit = true →
        (env.gitInitOk && env.gitAddOk && env.gitCommitOk) = false →
        ((opts.verbose = false → (createProject name opts env).result = Except.ok ()) ∧
         (opts.verbose = true →
           (createProject name opts env).result = Except.error Err.gitFailure)))) := by
  rcases hdir : createProjectDirectory env.dirState with ⟨r1, s1⟩
  rw [hdir] at hd hcopy
  rcases r1 with e1 | u1
  · exact absurd hd (by simp)
  · cases u1
    simp only at hcopy
    constructor
    · intro hI hnpm hfail hG'
      have hgetD : opts.install.getD true = true := by
        rcases hoi : opts.install with _ | b
        · rfl
        · cases b
          · exact absurd hoi (by simpa using hI)
          · rfl
      constructor
      · intro hverb
        have hinst : installDependencies opts env = Except.ok () := by
          simp [installDependencies, hgetD, hnpm, hfail, hverb]
        simp [createProject, hv, hdir, hcopy, hcfg, hI, hG', hinst]
      · intro hverb
        have hinst : installDependencies opts env = Except.error Err.installFailure := by
          simp [installDependencies, hgetD, hnpm, hfail, hverb]
        simp [createProject, hv, hdir, hcopy, hcfg, hI, hG', hinst]
    · intro hIeq hG hasgit hcmdfail
      constructor
      · intro hverb
        have hgit : initGitRepo opts env = Except.ok () := by
          simp [initGitRepo, hG, hasgit, hcmdfail, hverb]
        simp [createProject, hv, hdir, hcopy, hcfg, hIeq, hG, hgit]
      · intro hverb
        have hgit : initGitRepo opts env = Except.error Err.gitFailure := by
          simp [initGitRepo, hG, hasgit, hcmdfail, hverb]
        simp [createProject, hv, hdir, hcopy, hcfg, hIeq, hG, hgit]

/-- An environment in which `npm` exists but `npm install` fails. -/
def envNpmFail : Env :=
  { dirState := DirState.present []
    templateExists := true
    template := [("package.json".toList, Content.json [("name".toList, "old".toList)])]
    hasNpm := true
    npmOk := false
    hasGit := true
    gitInitOk := true
    gitAddOk := true
    gitCommitOk := true }

/-- An environment in which `git` exists but `git commit` fails. -/
def envGitFail : Env :=
  { envNpmFail with npmOk := true, gitCommitOk := false }

theorem optionalStep_failure_handling_witness :
    (createProject "myapp".toList ⟨none, false, false⟩ envNpmFail).result =
      Except.ok () ∧
    (createProject "myapp".toList ⟨none, false, true⟩ envNpmFail).result =
      Except.error Err.installFailure ∧
    (createProject "myapp".toList ⟨some false, true, false⟩ envGitFail).result =
      Except.ok () ∧
    (createProject "myapp".toList ⟨some false, true, true⟩ envGitFail).result =
      Except.error Err.gitFailure := by
  refine ⟨?_, ?_, ?_, ?_⟩
  · exact ((optionalStep_failure_handling "myapp".toList ⟨none, false, false⟩ envNpmFail
      (DirState.present [("package.json".toList, Content.json [("name".toList, "old".toList)])])
      (DirState.present [("package.json".toList, Content.json [("name".toList, "myapp".toList)])])
      (by decide) (by decide) (by decide) (by decide)).1
      (by decide) (by decide) (by decide) (by decide)).1 (by decide)
  · exact ((optionalStep_failure_handling "myapp".toList ⟨none, false, true⟩ envNpmFail
      (DirState.present [("package.json".toList, Content.json [("name".toList, "old".toList)])])
      (DirState.present [("package.json".toList, Content.json [("name".toList, "myapp".toList)])])
      (by decide) (by decide) (by decide) (by decide)).1
      (by decide) (by decide) (by decide) (by decide)).2 (by decide)
  · exact ((optionalStep_failure_handling "myapp".toList ⟨some false, true, false⟩ envGitFail
      (DirState.present [("package.json".toList, Content.json [("name".toList, "old".toList)])])
      (DirState.present [("package.json".toList, Content.json [("name".toList, "myapp".toList)])])
      (by decide) (by decide) (by decide) (by decide)).2
      (by decide) (by decide) (by decide) (by decide)).1 (by decide)
  · exact ((optionalStep_failure_handling "myapp".toList ⟨some false, true, true⟩ envGitFail
      (DirState.present [("package.json".toList, Content.json [("name".toList, "old".toList)])])
      (DirState.present [("package.json".toList, Content.json [("name".toList, "myapp".toList)])])
      (by decide) (by decide) (by decide) (by decide)).2
      (by decide) (by decide) (by decide) (by decide)).2 (by decide)

end NodejsFs
